import Mathlib

/-!
# beautifuladdress-go-tg: the validators, the match test and the search workers of `main.go`

A Go `string` is a read-only sequence of bytes, `len` counts bytes and
`strings.HasPrefix` / `strings.HasSuffix` compare bytes, so a string is embedded as a list of
bytes.  The two regular expressions of `main.go` are embedded as regular expressions over bytes
and run by the derivative matcher `RegularExpression.rmatch`.  Go's `regexp` decodes its input as
UTF-8, every atom of the two patterns is an ASCII character, an ASCII rune is encoded as the one
byte of the same value, and no byte of a longer (or invalid) encoding is below `0x80`; matching
byte by byte therefore accepts the same strings.
-/

namespace BeautifulAddress

/-! ## Go strings -/

/-- A Go string: an immutable sequence of bytes. -/
abbrev GoString := List UInt8

/-- The bytes of a string literal of the source (Go source text is UTF-8). -/
def str (s : String) : GoString := s.toUTF8.data.toList

/-- The byte of an ASCII character. -/
def byte (c : Char) : UInt8 := c.toNat.toUInt8

/-- Go's builtin `len` on a string: its number of bytes. -/
def len (s : GoString) : Nat := s.length

/-- The slice expression `s[lo:hi]` for `lo ≤ hi ≤ len s`. -/
def slice (s : GoString) (lo hi : Nat) : GoString := (s.take hi).drop lo

/-- Go's `strings.HasPrefix`:
`return len(s) >= len(prefix) && s[0:len(prefix)] == prefix`. -/
def strings.HasPrefix (s pre : GoString) : Bool :=
  decide (len s ≥ len pre) && slice s 0 (len pre) == pre

/-- Go's `strings.HasSuffix`:
`return len(s) >= len(suffix) && s[len(s)-len(suffix):] == suffix`. -/
def strings.HasSuffix (s suffix : GoString) : Bool :=
  decide (len s ≥ len suffix) && slice s (len s - len suffix) (len s) == suffix

/-! ## Regular expressions -/

/-- The bytes `lo, lo+1, …, hi` of a class range `lo-hi`. -/
def rangeBytes (lo hi : Char) : List UInt8 :=
  (List.range' lo.toNat (hi.toNat + 1 - lo.toNat)).map Nat.toUInt8

/-- A bracket expression `[a-bc-d…]`: the alternation of the characters of its ranges. -/
def charClass (ranges : List (Char × Char)) : RegularExpression UInt8 :=
  ((ranges.flatMap fun r => rangeBytes r.1 r.2).map RegularExpression.char).foldr
    RegularExpression.plus RegularExpression.zero

/-- The class `[0-9a-fA-F]` used by both patterns. -/
def hexClass : RegularExpression UInt8 := charClass [('0', '9'), ('a', 'f'), ('A', 'F')]

/-- The pattern `^0x[0-9a-fA-F]*$` (lines 26 and 46); the anchors make the match a match of the
whole input, which is how `MatchString` below runs it. -/
def validHexPrefixPattern : RegularExpression UInt8 :=
  RegularExpression.comp (RegularExpression.char (byte '0'))
    (RegularExpression.comp (RegularExpression.char (byte 'x'))
      (RegularExpression.star hexClass))

/-- The pattern `^[0-9a-fA-F]*$` (lines 35 and 47). -/
def validHexPattern : RegularExpression UInt8 := RegularExpression.star hexClass

/-- The method `(*Regexp).MatchString` of a pattern anchored at both ends by `^` and `$`
(no flags): the pattern matches the whole input. -/
def MatchString (re : RegularExpression UInt8) (s : GoString) : Bool := re.rmatch s

/-! ## The validators (lines 19-49) -/

/-- The function `isValidPrefix` of `main.go` (lines 19-28). -/
def isValidPrefix (input : GoString) : Bool :=
  if !strings.HasPrefix input (str "0x") then false
  else if len input > 7 then false
  else MatchString validHexPrefixPattern input

/-- The function `isValidSuffix` of `main.go` (lines 30-37). -/
def isValidSuffix (input : GoString) : Bool :=
  if len input > 5 then false
  else MatchString validHexPattern input

/-- The function `isValidPrefixSuffix` of `main.go` (lines 39-49). -/
def isValidPrefixSuffix (pre suffix : GoString) : Bool :=
  if !strings.HasPrefix pre (str "0x") then false
  else if len pre + len suffix > 7 then false
  else MatchString validHexPrefixPattern pre && MatchString validHexPattern suffix

/-- A byte is one of the characters of `[0-9a-fA-F]`. -/
def isHexDigit (b : UInt8) : Prop :=
  (byte '0' ≤ b ∧ b ≤ byte '9') ∨ (byte 'a' ≤ b ∧ b ≤ byte 'f') ∨ (byte 'A' ≤ b ∧ b ≤ byte 'F')

instance (b : UInt8) : Decidable (isHexDigit b) := by
  unfold isHexDigit; exact inferInstance


/-- The bytes listed by the class `[0-9a-fA-F]`. -/
def hexBytes : List UInt8 :=
  [('0', '9'), ('a', 'f'), ('A', 'F')].flatMap fun r => rangeBytes r.1 r.2

/-! ## The match test and one worker (lines 52-97) -/

/-- The condition of the `if` of line 91:
`strings.HasPrefix(address, prefix) && strings.HasSuffix(address, suffix)`. -/
def matchTest (address pre suffix : GoString) : Bool :=
  strings.HasPrefix address pre && strings.HasSuffix address suffix

/-- The call `fmt.Sprintf("📝 Mnemonic: %s\n🏷️ Address: %s", mnemonic, address)` of line 92:
with two string operands the verb `%s` writes the operand's bytes unchanged. -/
def Sprintf (mnemonic address : GoString) : GoString :=
  str "📝 Mnemonic: " ++ mnemonic ++ str "\n🏷️ Address: " ++ address

/-- The library functions called by one loop iteration, which are not code of this repository.
A Go `error` is represented by its message.  `bip39.NewEntropy` reads the system's random
source, so its result is an input of the iteration and not a field here. -/
structure Crypto (MasterKey PrivateKey PublicKey : Type) where
  /-- The function `bip39.NewMnemonic(entropy)`. -/
  NewMnemonic : List UInt8 → Except GoString GoString
  /-- The function `bip39.NewSeed(mnemonic, password)`. -/
  NewSeed : GoString → GoString → List UInt8
  /-- The function `bip32.NewMasterKey(seed)`. -/
  NewMasterKey : List UInt8 → Except GoString MasterKey
  /-- The field `masterKey.Key`. -/
  Key : MasterKey → List UInt8
  /-- The function `crypto.ToECDSA(d)`. -/
  ToECDSA : List UInt8 → Except GoString PrivateKey
  /-- The expression `privateKeyECDSA.Public().(*ecdsa.PublicKey)` of lines 83-84: the public key
  when the type assertion holds, `none` when `ok` is false. -/
  PublicECDSA : PrivateKey → Option PublicKey
  /-- The expression `crypto.PubkeyToAddress(*publicKeyECDSA).Hex()`. -/
  PubkeyToAddressHex : PublicKey → GoString

/-- What one pass through the body of the `for` loop (lines 56-95) does. -/
inductive Outcome where
  /-- The call `log.Fatal(err)`: the message is logged and `os.Exit(1)` ends the process. -/
  | fatal (err : GoString)
  /-- Lines 92-93: the pass builds `result` and reaches the send `results <- result`. -/
  | send (result : GoString)
  /-- The `if` of line 91 is not taken: control goes back to the head of the `for`. -/
  | next
  deriving DecidableEq, Repr

/-- One pass through the body of the `for` loop of `generateMnemonicAndAddress` (lines 56-95),
given what `bip39.NewEntropy(256)` returned. -/
def iteration {MasterKey PrivateKey PublicKey : Type} (C : Crypto MasterKey PrivateKey PublicKey)
    (pre suffix : GoString) (newEntropy : Except GoString (List UInt8)) : Outcome :=
  match newEntropy with
  | .error err => .fatal err
  | .ok entropy =>
    match C.NewMnemonic entropy with
    | .error err => .fatal err
    | .ok mnemonic =>
      let seed := C.NewSeed mnemonic (str "")
      match C.NewMasterKey seed with
      | .error err => .fatal err
      | .ok masterKey =>
        match C.ToECDSA (C.Key masterKey) with
        | .error err => .fatal err
        | .ok privateKeyECDSA =>
          match C.PublicECDSA privateKeyECDSA with
          | none => .fatal (str "error casting public key to ECDSA")
          | some publicKeyECDSA =>
            let address := C.PubkeyToAddressHex publicKeyECDSA
            if matchTest address pre suffix then .send (Sprintf mnemonic address)
            else .next

/-- How far a worker has got, on its own, after a bounded number of passes. -/
inductive Run where
  /-- The process was ended by `log.Fatal`. -/
  | fatal (err : GoString)
  /-- The worker stands at `results <- result` (line 93) and offers `result`.  The channel is
  unbuffered: the send completes, and the worker goes on to `return` (line 94), only when a
  receive takes the value; until then, and for good when no receive comes, it stays at
  line 93. -/
  | sending (result : GoString)
  /-- The worker is still in its `for` loop. -/
  | looping
  deriving DecidableEq, Repr

/-- The function `generateMnemonicAndAddress` of `main.go` (lines 52-97), run for at most `fuel`
passes of its unbounded `for` loop, starting with the pass number `i`, as far as the worker gets
without the other end of the channel: up to its send of line 93.  Whether that send completes is
decided by the handler's receive and is part of `step` below.  `rand i` is what
`bip39.NewEntropy(256)` returns in pass `i`. -/
def generateMnemonicAndAddress {MasterKey PrivateKey PublicKey : Type}
    (C : Crypto MasterKey PrivateKey PublicKey) (pre suffix : GoString)
    (rand : Nat → Except GoString (List UInt8)) : Nat → Nat → Run
  | 0, _ => .looping
  | fuel + 1, i =>
    match iteration C pre suffix (rand i) with
    | .fatal err => .fatal err
    | .send result => .sending result
    | .next => generateMnemonicAndAddress C pre suffix rand fuel (i + 1)

/-- All derivation steps of a pass succeed, with mnemonic `m` and address `a`. -/
def Derives {MasterKey PrivateKey PublicKey : Type} (C : Crypto MasterKey PrivateKey PublicKey)
    (newEntropy : Except GoString (List UInt8)) (m a : GoString) : Prop :=
  ∃ entropy masterKey privateKey publicKey,
    newEntropy = .ok entropy ∧ C.NewMnemonic entropy = .ok m ∧
    C.NewMasterKey (C.NewSeed m (str "")) = .ok masterKey ∧
    C.ToECDSA (C.Key masterKey) = .ok privateKey ∧
    C.PublicECDSA privateKey = some publicKey ∧ C.PubkeyToAddressHex publicKey = a

/-- Key derivation fails in a pass with error `err`: entropy and mnemonic are produced, and
either `bip32.NewMasterKey` or `crypto.ToECDSA` returns `err`. -/
def KeyDerivationFails {MasterKey PrivateKey PublicKey : Type}
    (C : Crypto MasterKey PrivateKey PublicKey)
    (newEntropy : Except GoString (List UInt8)) (err : GoString) : Prop :=
  ∃ entropy m, newEntropy = .ok entropy ∧ C.NewMnemonic entropy = .ok m ∧
    (C.NewMasterKey (C.NewSeed m (str "")) = .error err ∨
      ∃ masterKey, C.NewMasterKey (C.NewSeed m (str "")) = .ok masterKey ∧
        C.ToECDSA (C.Key masterKey) = .error err)

/-- A stand-in for the libraries, used to run the model on concrete inputs: the mnemonic is the
entropy, the seed and all keys are the mnemonic's bytes and the address is the public key, so
the address of a pass is its entropy; the master key of the empty seed is refused. -/
def toyCrypto : Crypto (List UInt8) (List UInt8) (List UInt8) where
  NewMnemonic := fun entropy => .ok entropy
  NewSeed := fun mnemonic _ => mnemonic
  NewMasterKey := fun seed => if seed = [] then .error (str "invalid key") else .ok seed
  Key := fun masterKey => masterKey
  ToECDSA := fun d => .ok d
  PublicECDSA := fun privateKey => some privateKey
  PubkeyToAddressHex := fun publicKey => publicKey

/-- A second stand-in for the libraries, in which mnemonic and address differ: the mnemonic is
the entropy behind the bytes "m:", the seed and all keys are the mnemonic's bytes, and the
address is "0x" followed by the entropy. -/
def labelCrypto : Crypto (List UInt8) (List UInt8) (List UInt8) where
  NewMnemonic := fun entropy => .ok (str "m:" ++ entropy)
  NewSeed := fun mnemonic _ => mnemonic
  NewMasterKey := fun seed => .ok seed
  Key := fun masterKey => masterKey
  ToECDSA := fun d => .ok d
  PublicECDSA := fun privateKey => some privateKey
  PubkeyToAddressHex := fun publicKey => str "0x" ++ publicKey.drop 2

/-! ## One search: the goroutines started by a command handler (lines 133-150, 161-178, 189-207)

The three handlers have the same shape: `results := make(chan string)` is an unbuffered channel,
`numThreads` workers are started on it, one more goroutine closes it after `wg.Wait()`, and the
handler receives from it once and passes what it received to `bot.Send`.  A send on an unbuffered
channel completes only together with a receive, so a worker that has reached line 93 stays there
until the handler takes its value.  The goroutines are interleaved one atomic action at a time.
-/

/-- Where a worker goroutine stands. -/
inductive Worker where
  /-- At the head of the `for` loop, about to begin its pass number `i`. -/
  | running (i : Nat)
  /-- Blocked in `results <- result` (line 93). -/
  | sending (result : GoString)
  /-- After `return` (line 94); the deferred `wg.Done()` has run. -/
  | returned
  deriving DecidableEq, Repr

/-- Where the handler goroutine stands. -/
inductive Handler where
  /-- Blocked in `result := <-results`. -/
  | receiving
  /-- The receive and `bot.Send(m.Sender, result)` are done; the handler has returned. -/
  | done
  deriving DecidableEq, Repr

/-- The state of one search. -/
structure Search where
  /-- The worker goroutines, in the order they were started. -/
  workers : List Worker
  /-- Whether `close(results)` has run. -/
  closed : Bool
  /-- The handler goroutine. -/
  handler : Handler
  /-- The results passed to `bot.Send` so far, oldest first: what was delivered to the caller. -/
  delivered : List GoString
  /-- Whether `log.Fatal` has ended the process. -/
  exited : Bool
  deriving DecidableEq, Repr

/-- The atomic actions of the goroutines of one search. -/
inductive Action where
  /-- Worker `w` runs one pass of its loop, up to the send of line 93 when the address matches. -/
  | iterate (w : Nat)
  /-- The send of worker `w` (line 93) and the handler's receive meet: the worker returns and
  the handler passes the value to `bot.Send`. -/
  | receive (w : Nat)
  /-- The goroutine of `wg.Wait(); close(results)`: all workers have returned, the channel is
  closed. -/
  | close
  /-- The handler's receive on the closed channel yields the empty string. -/
  | receiveClosed
  deriving DecidableEq, Repr

/-- The state after the handler has started `numThreads` workers and reached its receive. -/
def Search.start (numThreads : Nat) : Search where
  workers := List.replicate numThreads (.running 0)
  closed := false
  handler := .receiving
  delivered := []
  exited := false

/-- One atomic action; `none` when the action cannot happen in the state.  `rand w i` is what
`bip39.NewEntropy(256)` returns to worker `w` in its pass `i`. -/
def step {MasterKey PrivateKey PublicKey : Type} (C : Crypto MasterKey PrivateKey PublicKey)
    (pre suffix : GoString) (rand : Nat → Nat → Except GoString (List UInt8))
    (s : Search) : Action → Option Search
  | .iterate w =>
    if s.exited then none
    else
      match s.workers[w]? with
      | some (.running i) =>
        match iteration C pre suffix (rand w i) with
        | .fatal _ => some { s with exited := true }
        | .send result => some { s with workers := s.workers.set w (.sending result) }
        | .next => some { s with workers := s.workers.set w (.running (i + 1)) }
      | _ => none
  | .receive w =>
    if s.exited then none
    else
      match s.handler, s.workers[w]? with
      | .receiving, some (.sending result) =>
        some { s with
          workers := s.workers.set w .returned
          handler := .done
          delivered := s.delivered ++ [result] }
      | _, _ => none
  | .close =>
    if s.exited || s.closed then none
    else if s.workers.all (fun w => w == .returned) then some { s with closed := true }
    else none
  | .receiveClosed =>
    if s.exited then none
    else
      match s.handler with
      | .receiving =>
        if s.closed then some { s with handler := .done, delivered := s.delivered ++ [str ""] }
        else none
      | .done => none

/-- A schedule: the actions of a list, one after the other. -/
def run {MasterKey PrivateKey PublicKey : Type} (C : Crypto MasterKey PrivateKey PublicKey)
    (pre suffix : GoString) (rand : Nat → Nat → Except GoString (List UInt8)) :
    Search → List Action → Option Search
  | s, [] => some s
  | s, a :: as =>
    match step C pre suffix rand s a with
    | none => none
    | some t => run C pre suffix rand t as

/-- A result that some pass of some worker of the search built from a successful derivation
whose address starts with the prefix and ends with the suffix: the format string of line 92
filled with the mnemonic and the address of that pass. -/
def FromMatchingPass {MasterKey PrivateKey PublicKey : Type}
    (C : Crypto MasterKey PrivateKey PublicKey) (pre suffix : GoString)
    (rand : Nat → Nat → Except GoString (List UInt8)) (r : GoString) : Prop :=
  ∃ w k m a, Derives C (rand w k) m a ∧
    r = str "📝 Mnemonic: " ++ m ++ str "\n🏷️ Address: " ++ a ∧
    (∃ t, a = pre ++ t) ∧ (∃ t, a = t ++ suffix)

/-- The facts that hold in every state a search of `numThreads` workers can reach. -/
def Reachable {MasterKey PrivateKey PublicKey : Type}
    (C : Crypto MasterKey PrivateKey PublicKey) (pre suffix : GoString)
    (rand : Nat → Nat → Except GoString (List UInt8)) (numThreads : Nat) (s : Search) : Prop :=
  s.workers.length = numThreads ∧
  (s.handler = .receiving →
    s.delivered = [] ∧ s.closed = false ∧ ∀ v : Nat, s.workers[v]? ≠ some Worker.returned) ∧
  (s.handler = .done → s.delivered ≠ [] ∧ ∃ v : Nat, s.workers[v]? = some Worker.returned) ∧
  (∀ (v : Nat) (r : GoString), s.workers[v]? = some (Worker.sending r) →
    FromMatchingPass C pre suffix rand r) ∧
  (∀ r ∈ s.delivered, FromMatchingPass C pre suffix rand r)

/-! ## Auxiliary lemmas -/

theorem classBytes_foldr_rmatch (l : List UInt8) (x : GoString) :
    ((l.map RegularExpression.char).foldr RegularExpression.plus RegularExpression.zero).rmatch x
      = true ↔ ∃ b ∈ l, x = [b] := by
  induction l with
  | nil => simp [RegularExpression.zero_def]
  | cons a l ih =>
    simp only [List.map_cons, List.foldr_cons, RegularExpression.plus_def,
      RegularExpression.add_rmatch_iff, RegularExpression.char_rmatch_iff, List.mem_cons,
      exists_eq_or_imp]
    rw [ih]

set_option maxRecDepth 100000 in
theorem mem_hexBytes_nat :
    ∀ n, n < 256 → (Nat.toUInt8 n ∈ hexBytes ↔ isHexDigit (Nat.toUInt8 n)) := by
  decide

theorem mem_hexBytes (b : UInt8) : b ∈ hexBytes ↔ isHexDigit b := by
  have h := mem_hexBytes_nat b.toNat (UInt8.toNat_lt b)
  have e : b.toNat.toUInt8 = b := by
    cases b; simp [Nat.toUInt8, UInt8.ofNat, UInt8.toNat]
  rwa [e] at h

theorem hexClass_rmatch (x : GoString) :
    hexClass.rmatch x = true ↔ ∃ b, isHexDigit b ∧ x = [b] := by
  unfold hexClass charClass
  rw [classBytes_foldr_rmatch]
  constructor
  · rintro ⟨b, hb, rfl⟩
    exact ⟨b, (mem_hexBytes b).1 hb, rfl⟩
  · rintro ⟨b, hb, rfl⟩
    exact ⟨b, (mem_hexBytes b).2 hb, rfl⟩

theorem validHexPattern_match (s : GoString) :
    MatchString validHexPattern s = true ↔ ∀ b ∈ s, isHexDigit b := by
  unfold MatchString validHexPattern
  rw [RegularExpression.star_rmatch_iff]
  constructor
  · rintro ⟨S, rfl, hS⟩ b hb
    obtain ⟨t, ht, hbt⟩ := List.mem_flatten.1 hb
    obtain ⟨c, hc, rfl⟩ := (hexClass_rmatch t).1 (hS t ht).2
    rw [List.mem_singleton] at hbt
    exact hbt ▸ hc
  · intro h
    refine ⟨s.map fun b => [b], ?_, ?_⟩
    · induction s with
      | nil => rfl
      | cons a s ih =>
        simpa using ih fun b hb => h b (List.mem_cons_of_mem a hb)
    · intro t ht
      obtain ⟨b, hb, rfl⟩ := List.mem_map.1 ht
      exact ⟨by simp, (hexClass_rmatch [b]).2 ⟨b, h b hb, rfl⟩⟩

theorem validHexPrefixPattern_match (s : GoString) :
    MatchString validHexPrefixPattern s = true ↔
      ∃ rest, s = str "0x" ++ rest ∧ ∀ b ∈ rest, isHexDigit b := by
  have h0x : str "0x" = [byte '0', byte 'x'] := by decide
  unfold MatchString validHexPrefixPattern
  simp only [RegularExpression.comp_def, RegularExpression.mul_rmatch_iff,
    RegularExpression.char_rmatch_iff]
  constructor
  · rintro ⟨t, u, rfl, rfl, v, w, rfl, rfl, hw⟩
    exact ⟨w, by rw [h0x]; rfl, (validHexPattern_match w).1 hw⟩
  · rintro ⟨rest, rfl, hrest⟩
    exact ⟨[byte '0'], byte 'x' :: rest, by rw [h0x]; rfl, rfl, [byte 'x'], rest, rfl, rfl,
      (validHexPattern_match rest).2 hrest⟩

theorem HasPrefix_iff (s pre : GoString) :
    strings.HasPrefix s pre = true ↔ ∃ t, s = pre ++ t := by
  unfold strings.HasPrefix slice len
  simp only [List.drop_zero, Bool.and_eq_true, decide_eq_true_eq, beq_iff_eq]
  constructor
  · rintro ⟨_, h⟩
    exact ⟨s.drop pre.length, by
      conv_lhs => rw [← List.take_append_drop pre.length s]
      rw [h]⟩
  · rintro ⟨t, rfl⟩
    simp

theorem HasSuffix_iff (s suffix : GoString) :
    strings.HasSuffix s suffix = true ↔ ∃ t, s = t ++ suffix := by
  unfold strings.HasSuffix slice len
  simp only [List.take_length, Bool.and_eq_true, decide_eq_true_eq, beq_iff_eq]
  constructor
  · rintro ⟨_, h⟩
    exact ⟨s.take (s.length - suffix.length), by
      conv_lhs => rw [← List.take_append_drop (s.length - suffix.length) s]
      rw [h]⟩
  · rintro ⟨t, rfl⟩
    simp

theorem str_0x_length : len (str "0x") = 2 := by decide

theorem isValidPrefix_eq_true (s : GoString) :
    isValidPrefix s = true ↔
      ∃ rest, s = str "0x" ++ rest ∧ len rest ≤ 5 ∧ ∀ b ∈ rest, isHexDigit b := by
  unfold isValidPrefix
  constructor
  · intro h
    split at h
    · exact absurd h (by simp)
    · split at h
      · exact absurd h (by simp)
      · rename_i _ hlen
        obtain ⟨rest, rfl, hrest⟩ := (validHexPrefixPattern_match s).1 h
        refine ⟨rest, rfl, ?_, hrest⟩
        have h2 := str_0x_length
        simp only [len, List.length_append] at hlen h2 ⊢
        omega
  · rintro ⟨rest, rfl, hlen, hrest⟩
    have hp : strings.HasPrefix (str "0x" ++ rest) (str "0x") = true :=
      (HasPrefix_iff _ _).2 ⟨rest, rfl⟩
    have h2 := str_0x_length
    have hl : ¬ len (str "0x" ++ rest) > 7 := by
      simp only [len, List.length_append] at hlen h2 ⊢
      omega
    rw [hp]
    simp only [Bool.not_true, Bool.false_eq_true, if_false, hl]
    exact (validHexPrefixPattern_match _).2 ⟨rest, rfl, hrest⟩

theorem isValidSuffix_eq_true (s : GoString) :
    isValidSuffix s = true ↔ len s ≤ 5 ∧ ∀ b ∈ s, isHexDigit b := by
  unfold isValidSuffix
  constructor
  · intro h
    split at h
    · exact absurd h (by simp)
    · rename_i hlen
      exact ⟨by omega, (validHexPattern_match s).1 h⟩
  · rintro ⟨hlen, hs⟩
    have hl : ¬ len s > 5 := by omega
    simp only [hl, if_false]
    exact (validHexPattern_match s).2 hs

theorem isValidPrefixSuffix_eq_true (pre suffix : GoString) :
    isValidPrefixSuffix pre suffix = true ↔
      ∃ rest, pre = str "0x" ++ rest ∧ (∀ b ∈ rest, isHexDigit b) ∧
        (∀ b ∈ suffix, isHexDigit b) ∧ len rest + len suffix ≤ 5 := by
  unfold isValidPrefixSuffix
  constructor
  · intro h
    split at h
    · exact absurd h (by simp)
    · split at h
      · exact absurd h (by simp)
      · rename_i _ hlen
        rw [Bool.and_eq_true] at h
        obtain ⟨rest, rfl, hrest⟩ := (validHexPrefixPattern_match pre).1 h.1
        refine ⟨rest, rfl, hrest, (validHexPattern_match suffix).1 h.2, ?_⟩
        have h2 := str_0x_length
        simp only [len, List.length_append] at hlen h2 ⊢
        omega
  · rintro ⟨rest, rfl, hrest, hsuf, hlen⟩
    have hp : strings.HasPrefix (str "0x" ++ rest) (str "0x") = true :=
      (HasPrefix_iff _ _).2 ⟨rest, rfl⟩
    have h2 := str_0x_length
    have hl : ¬ len (str "0x" ++ rest) + len suffix > 7 := by
      simp only [len, List.length_append] at hlen h2 ⊢
      omega
    rw [hp]
    simp only [Bool.not_true, Bool.false_eq_true, if_false, hl, Bool.and_eq_true]
    exact ⟨(validHexPrefixPattern_match _).2 ⟨rest, rfl, hrest⟩,
      (validHexPattern_match suffix).2 hsuf⟩

theorem isValidPrefixSuffix_of_long (pre suffix : GoString)
    (h : len (pre.drop 2) + len suffix > 5) : isValidPrefixSuffix pre suffix = false := by
  rw [← Bool.not_eq_true]
  intro ht
  obtain ⟨rest, rfl, _, _, hlen⟩ := (isValidPrefixSuffix_eq_true pre suffix).1 ht
  have h2 := str_0x_length
  simp only [len, List.length_drop, List.length_append] at h hlen h2
  omega

/-! ## The validators -/

/-- C5: `isValidPrefix s` is true iff `s` is "0x" followed by at most 5 characters, each in
`[0-9a-fA-F]`; equivalently iff `s` starts with "0x", is no longer than 7 symbols and has only
hex digits after the "0x".  "0x" alone is accepted and the empty string is rejected. -/
theorem isValidPrefix_spec :
    (∀ s : GoString, isValidPrefix s = true ↔
      ∃ rest, s = str "0x" ++ rest ∧ len rest ≤ 5 ∧ ∀ b ∈ rest, isHexDigit b) ∧
    (∀ s : GoString, isValidPrefix s = true ↔
      strings.HasPrefix s (str "0x") = true ∧ len s ≤ 7 ∧ ∀ b ∈ s.drop 2, isHexDigit b) ∧
    isValidPrefix (str "0x") = true ∧ isValidPrefix (str "") = false := by
  refine ⟨isValidPrefix_eq_true, fun s => ?_, by decide, by decide⟩
  rw [isValidPrefix_eq_true, HasPrefix_iff]
  have h2 := str_0x_length
  constructor
  · rintro ⟨rest, rfl, hlen, hrest⟩
    refine ⟨⟨rest, rfl⟩, ?_, ?_⟩
    · simp only [len, List.length_append] at hlen h2 ⊢
      omega
    · have : (str "0x" ++ rest).drop 2 = rest := by
        rw [← h2]; exact List.drop_left _ _
      rwa [this]
  · rintro ⟨⟨rest, rfl⟩, hlen, hrest⟩
    have : (str "0x" ++ rest).drop 2 = rest := by
      rw [← h2]; exact List.drop_left _ _
    rw [this] at hrest
    refine ⟨rest, rfl, ?_, hrest⟩
    simp only [len, List.length_append] at hlen h2 ⊢
    omega

/-- C6: `isValidSuffix s` is true iff `s` has length at most 5 and every character of `s` is in
`[0-9a-fA-F]`; the empty string is accepted and a suffix of 6 hex digits is rejected. -/
theorem isValidSuffix_spec :
    (∀ s : GoString, isValidSuffix s = true ↔ len s ≤ 5 ∧ ∀ b ∈ s, isHexDigit b) ∧
    isValidSuffix (str "") = true ∧
    (∀ s : GoString, len s = 6 → (∀ b ∈ s, isHexDigit b) → isValidSuffix s = false) ∧
    isValidSuffix (str "abcdef") = false := by
  refine ⟨isValidSuffix_eq_true, by decide, fun s h6 _ => ?_, by decide⟩
  rw [← Bool.not_eq_true, isValidSuffix_eq_true]
  omega

/-- C1, as the spec states it, fails: in the pair ("0x12345", "67") the first string is "0x"
followed by five hex digits, the second is two hex digits, five plus two is at most 7, and
`isValidPrefixSuffix` rejects the pair. -/
theorem seven_hex_digits_rejected :
    str "0x12345" = str "0x" ++ str "12345" ∧ (∀ b ∈ str "12345", isHexDigit b) ∧
    (∀ b ∈ str "67", isHexDigit b) ∧ len (str "12345") + len (str "67") ≤ 7 ∧
    isValidPrefixSuffix (str "0x12345") (str "67") = false := by
  decide

/-- C1, amended: `isValidPrefixSuffix` accepts every pair in which the first string is "0x"
followed only by hex digits, the second consists only of hex digits, and the number of hex
digits after the "0x" plus the length of the second is at most 5, that is, the two strings
together, the "0x" included, are at most 7 bytes long. -/
theorem isValidPrefixSuffix_accepts (pre suffix rest : GoString)
    (hpre : pre = str "0x" ++ rest) (hrest : ∀ b ∈ rest, isHexDigit b)
    (hsuffix : ∀ b ∈ suffix, isHexDigit b) (hlen : len rest + len suffix ≤ 5) :
    isValidPrefixSuffix pre suffix = true ∧ len pre + len suffix ≤ 7 := by
  refine ⟨(isValidPrefixSuffix_eq_true pre suffix).2 ⟨rest, hpre, hrest, hsuffix, hlen⟩, ?_⟩
  have h2 := str_0x_length
  subst hpre
  simp only [len, List.length_append] at hlen h2 ⊢
  omega

/-- The pair ("0x123", "45"), five hex digits in all, is accepted. -/
theorem isValidPrefixSuffix_accepts_witness :
    isValidPrefixSuffix (str "0x123") (str "45") = true ∧
      len (str "0x123") + len (str "45") ≤ 7 :=
  isValidPrefixSuffix_accepts (str "0x123") (str "45") (str "123") (by decide) (by decide)
    (by decide) (by decide)

/-- C2: when the number of hex digits of the first string after its leading "0x" plus the length
of the second exceeds 7, `isValidPrefixSuffix` is false, as it is for ("0x12345", "678"); it is
also false when the first string does not start with "0x", when a byte after its "0x" is not in
`[0-9a-fA-F]`, and when a byte of the second string is not in `[0-9a-fA-F]`. -/
theorem isValidPrefixSuffix_rejects :
    (∀ pre suffix : GoString, len (pre.drop 2) + len suffix > 7 →
      isValidPrefixSuffix pre suffix = false) ∧
    (∀ pre suffix : GoString,
      (pre.drop 2).countP (fun b => decide (isHexDigit b)) + len suffix > 7 →
        isValidPrefixSuffix pre suffix = false) ∧
    isValidPrefixSuffix (str "0x12345") (str "678") = false ∧
    (∀ pre suffix : GoString, strings.HasPrefix pre (str "0x") = false →
      isValidPrefixSuffix pre suffix = false) ∧
    (∀ pre suffix : GoString, (∃ b ∈ pre.drop 2, ¬ isHexDigit b) →
      isValidPrefixSuffix pre suffix = false) ∧
    (∀ pre suffix : GoString, (∃ b ∈ suffix, ¬ isHexDigit b) →
      isValidPrefixSuffix pre suffix = false) := by
  have h2 := str_0x_length
  refine ⟨fun pre suffix h => isValidPrefixSuffix_of_long pre suffix (by omega),
    fun pre suffix h => isValidPrefixSuffix_of_long pre suffix ?_, by decide,
    fun pre suffix h => ?_, fun pre suffix h => ?_, fun pre suffix h => ?_⟩
  · have := List.countP_le_length (fun b => decide (isHexDigit b)) (l := pre.drop 2)
    simp only [len] at h ⊢
    omega
  · simp [isValidPrefixSuffix, h]
  · rw [← Bool.not_eq_true]
    intro ht
    obtain ⟨rest, rfl, hrest, _, _⟩ := (isValidPrefixSuffix_eq_true pre suffix).1 ht
    obtain ⟨b, hb, hnot⟩ := h
    have : (str "0x" ++ rest).drop 2 = rest := by
      rw [← h2]; exact List.drop_left _ _
    rw [this] at hb
    exact hnot (hrest b hb)
  · rw [← Bool.not_eq_true]
    intro ht
    obtain ⟨rest, rfl, _, hsuf, _⟩ := (isValidPrefixSuffix_eq_true pre suffix).1 ht
    obtain ⟨b, hb, hnot⟩ := h
    exact hnot (hsuf b hb)

/-- C10: whenever `isValidPrefixSuffix pre suffix` is true, `isValidPrefix pre` and
`isValidSuffix suffix` are both true; the converse fails: "0x12345" and "6" are each valid
on their own and rejected together. -/
theorem isValidPrefixSuffix_stricter :
    (∀ pre suffix : GoString, isValidPrefixSuffix pre suffix = true →
      isValidPrefix pre = true ∧ isValidSuffix suffix = true) ∧
    (isValidPrefix (str "0x12345") = true ∧ isValidSuffix (str "6") = true ∧
      isValidPrefixSuffix (str "0x12345") (str "6") = false) := by
  refine ⟨fun pre suffix h => ?_, by decide⟩
  obtain ⟨rest, hpre, hrest, hsuf, hlen⟩ := (isValidPrefixSuffix_eq_true pre suffix).1 h
  exact ⟨(isValidPrefix_eq_true pre).2 ⟨rest, hpre, by omega, hrest⟩,
    (isValidSuffix_eq_true suffix).2 ⟨by omega, hsuf⟩⟩

/-! ## The match test -/

/-- C3: the match test of `generateMnemonicAndAddress` is true iff the address starts with the
prefix and ends with the suffix, byte for byte (so case matters): for the address
"0xAbCdEf0000000000000000000000000000000000" and the empty suffix it is false for the prefix
"0xabc" and true for the prefix "0xAbC". -/
theorem matchTest_spec :
    (∀ address pre suffix : GoString, matchTest address pre suffix = true ↔
      (∃ t, address = pre ++ t) ∧ (∃ t, address = t ++ suffix)) ∧
    matchTest (str "0xAbCdEf0000000000000000000000000000000000") (str "0xabc") (str "") = false ∧
    matchTest (str "0xAbCdEf0000000000000000000000000000000000") (str "0xAbC") (str "") = true := by
  refine ⟨fun address pre suffix => ?_, by decide, by decide⟩
  unfold matchTest
  rw [Bool.and_eq_true, HasPrefix_iff, HasSuffix_iff]

/-! ## One worker -/

theorem iteration_of_derives {MasterKey PrivateKey PublicKey : Type}
    (C : Crypto MasterKey PrivateKey PublicKey) (pre suffix : GoString)
    (e : Except GoString (List UInt8)) (m a : GoString) (h : Derives C e m a) :
    iteration C pre suffix e =
      if matchTest a pre suffix then .send (Sprintf m a) else .next := by
  obtain ⟨entropy, masterKey, privateKey, publicKey, rfl, h1, h2, h3, h4, rfl⟩ := h
  simp only [iteration, h1, h2, h3, h4]

theorem derives_of_send {MasterKey PrivateKey PublicKey : Type}
    (C : Crypto MasterKey PrivateKey PublicKey) (pre suffix : GoString)
    (e : Except GoString (List UInt8)) (r : GoString)
    (h : iteration C pre suffix e = .send r) :
    ∃ m a, Derives C e m a ∧ r = Sprintf m a ∧ matchTest a pre suffix = true := by
  unfold iteration at h
  split at h
  · exact absurd h (by simp)
  · rename_i entropy
    split at h
    · exact absurd h (by simp)
    · rename_i m h1
      simp only at h
      split at h
      · exact absurd h (by simp)
      · rename_i masterKey h2
        split at h
        · exact absurd h (by simp)
        · rename_i privateKey h3
          split at h
          · exact absurd h (by simp)
          · rename_i publicKey h4
            split at h
            · rename_i hm
              refine ⟨m, C.PubkeyToAddressHex publicKey,
                ⟨entropy, masterKey, privateKey, publicKey, rfl, h1, h2, h3, h4, rfl⟩, ?_, hm⟩
              exact (Outcome.send.inj h).symm
            · exact absurd h (by simp)

theorem sending_sound {MasterKey PrivateKey PublicKey : Type}
    (C : Crypto MasterKey PrivateKey PublicKey) (pre suffix : GoString)
    (rand : Nat → Except GoString (List UInt8)) (fuel : Nat) :
    ∀ (i : Nat) (r : GoString), generateMnemonicAndAddress C pre suffix rand fuel i = .sending r →
      ∃ k m a, i ≤ k ∧ k < i + fuel ∧ Derives C (rand k) m a ∧ r = Sprintf m a ∧
        matchTest a pre suffix = true := by
  induction fuel with
  | zero => intro i r h; exact absurd h (by simp [generateMnemonicAndAddress])
  | succ fuel ih =>
    intro i r h
    unfold generateMnemonicAndAddress at h
    split at h
    · exact absurd h (by simp)
    · rename_i result hs
      obtain ⟨m, a, hd, hr, hm⟩ := derives_of_send C pre suffix (rand i) result hs
      refine ⟨i, m, a, le_refl i, by omega, hd, ?_, hm⟩
      rw [← hr]; exact (Run.sending.inj h).symm
    · obtain ⟨k, m, a, hk1, hk2, rest⟩ := ih (i + 1) r h
      exact ⟨k, m, a, by omega, by omega, rest⟩

theorem iteration_of_fails {MasterKey PrivateKey PublicKey : Type}
    (C : Crypto MasterKey PrivateKey PublicKey) (pre suffix : GoString)
    (e : Except GoString (List UInt8)) (err : GoString) (h : KeyDerivationFails C e err) :
    iteration C pre suffix e = .fatal err := by
  obtain ⟨entropy, m, rfl, h1, h2 | ⟨masterKey, h2, h3⟩⟩ := h
  · simp only [iteration, h1, h2]
  · simp only [iteration, h1, h2, h3]

theorem step_exited {MasterKey PrivateKey PublicKey : Type}
    (C : Crypto MasterKey PrivateKey PublicKey) (pre suffix : GoString)
    (rand : Nat → Nat → Except GoString (List UInt8)) (s : Search) (h : s.exited = true)
    (a : Action) : step C pre suffix rand s a = none := by
  cases a <;> simp [step, h]

/-- C7, as the spec states it, fails: with the empty entropy drawn in pass 0 the master key is
refused, and the pass does not go on to the next one but ends the process through `log.Fatal`,
although the entropy of pass 1 would have given a matching address. -/
theorem key_derivation_failure_not_retried :
    KeyDerivationFails toyCrypto (.ok []) (str "invalid key") ∧
    iteration toyCrypto (str "0xAb") (str "2") (.ok []) = .fatal (str "invalid key") ∧
    generateMnemonicAndAddress toyCrypto (str "0xAb") (str "2")
      (fun i => if i = 0 then .ok [] else .ok (str "0xAb12")) 2 0 = .fatal (str "invalid key") ∧
    generateMnemonicAndAddress toyCrypto (str "0xAb") (str "2")
      (fun i => if i = 0 then .ok [] else .ok (str "0xAb12")) 1 1 =
        .sending (Sprintf (str "0xAb12") (str "0xAb12")) :=
  ⟨⟨[], [], rfl, rfl, Or.inl (by rfl)⟩, by decide, by decide, by decide⟩

/-- C7, amended: a key-derivation failure inside a pass of `generateMnemonicAndAddress`
(`bip32.NewMasterKey` or `crypto.ToECDSA` returning an error) is fatal: the pass calls
`log.Fatal(err)`, the worker sends nothing and begins no further pass, and the process, with it
the whole search, ends: no goroutine of the search takes another action and nothing more is
delivered. -/
theorem key_derivation_failure_is_fatal {MasterKey PrivateKey PublicKey : Type}
    (C : Crypto MasterKey PrivateKey PublicKey) (pre suffix : GoString)
    (rand : Nat → Nat → Except GoString (List UInt8)) (w i : Nat) (err : GoString)
    (h : KeyDerivationFails C (rand w i) err) :
    iteration C pre suffix (rand w i) = .fatal err ∧
    (∀ fuel, generateMnemonicAndAddress C pre suffix (rand w) (fuel + 1) i = .fatal err) ∧
    (∀ s : Search, s.exited = false → s.workers[w]? = some (.running i) →
      step C pre suffix rand s (.iterate w) = some { s with exited := true } ∧
      ∀ a, step C pre suffix rand { s with exited := true } a = none) := by
  have hit := iteration_of_fails C pre suffix (rand w i) err h
  refine ⟨hit, fun fuel => ?_, fun s hs hw => ⟨?_, fun a => step_exited C pre suffix rand _ rfl a⟩⟩
  · rw [generateMnemonicAndAddress, hit]
  · simp only [step, hs, hw, hit, Bool.false_eq_true, if_false]

/-- In a search of two workers, the empty entropy drawn by worker 1 in its pass 0 ends the
process. -/
theorem key_derivation_failure_is_fatal_witness :
    step toyCrypto (str "0xAb") (str "2") (fun w _ => if w = 1 then .ok [] else .ok (str "0xAb12"))
      (Search.start 2) (.iterate 1) = some { Search.start 2 with exited := true } :=
  ((key_derivation_failure_is_fatal toyCrypto (str "0xAb") (str "2")
    (fun w _ => if w = 1 then .ok [] else .ok (str "0xAb12")) 1 0 (str "invalid key")
    ⟨[], [], rfl, rfl, Or.inl (by rfl)⟩).2.2 (Search.start 2) rfl rfl).1

/-! ## One search -/

theorem step_delivered {MasterKey PrivateKey PublicKey : Type}
    (C : Crypto MasterKey PrivateKey PublicKey) (pre suffix : GoString)
    (rand : Nat → Nat → Except GoString (List UInt8)) (s t : Search) (a : Action)
    (hinv : (s.handler = .receiving ∧ s.delivered = []) ∨
      (s.handler = .done ∧ s.delivered.length = 1))
    (h : step C pre suffix rand s a = some t) :
    (t.handler = .receiving ∧ t.delivered = []) ∨
      (t.handler = .done ∧ t.delivered.length = 1) := by
  cases a with
  | iterate w =>
    simp only [step] at h
    split at h
    · exact absurd h (by simp)
    · split at h
      · split at h <;> (cases h; exact hinv)
      · exact absurd h (by simp)
  | receive w =>
    simp only [step] at h
    split at h
    · exact absurd h (by simp)
    · split at h
      · rename_i hh _
        cases h
        rcases hinv with ⟨_, hd⟩ | ⟨hd, _⟩
        · right; simp [hd]
        · rw [hh] at hd; exact absurd hd (by simp)
      · exact absurd h (by simp)
  | close =>
    simp only [step] at h
    split at h
    · exact absurd h (by simp)
    · split at h
      · cases h; exact hinv
      · exact absurd h (by simp)
  | receiveClosed =>
    simp only [step] at h
    split at h
    · exact absurd h (by simp)
    · split at h
      · rename_i hh
        split at h
        · cases h
          rcases hinv with ⟨_, hd⟩ | ⟨hd, _⟩
          · right; simp [hd]
          · rw [hh] at hd; exact absurd hd (by simp)
        · exact absurd h (by simp)
      · exact absurd h (by simp)

theorem run_delivered {MasterKey PrivateKey PublicKey : Type}
    (C : Crypto MasterKey PrivateKey PublicKey) (pre suffix : GoString)
    (rand : Nat → Nat → Except GoString (List UInt8)) (acts : List Action) :
    ∀ s t : Search,
      (s.handler = .receiving ∧ s.delivered = []) ∨ (s.handler = .done ∧ s.delivered.length = 1) →
      run C pre suffix rand s acts = some t →
      (t.handler = .receiving ∧ t.delivered = []) ∨
        (t.handler = .done ∧ t.delivered.length = 1) := by
  induction acts with
  | nil =>
    intro s t hinv h
    simp only [run, Option.some.injEq] at h
    exact h ▸ hinv
  | cons a acts ih =>
    intro s t hinv h
    simp only [run] at h
    split at h
    · exact absurd h (by simp)
    · rename_i u hu
      exact ih u t (step_delivered C pre suffix rand s u a hinv hu) h

/-- C8: in a search started by a command handler (workers sharing one unbuffered results
channel, the handler receiving from it once), at most one result is delivered to the caller,
under every interleaving of the goroutines and whatever the workers draw, also when several
workers find a match. -/
theorem at_most_one_result_delivered {MasterKey PrivateKey PublicKey : Type}
    (C : Crypto MasterKey PrivateKey PublicKey) (pre suffix : GoString)
    (rand : Nat → Nat → Except GoString (List UInt8)) (numThreads : Nat)
    (acts : List Action) (s : Search)
    (h : run C pre suffix rand (Search.start numThreads) acts = some s) :
    s.delivered.length ≤ 1 := by
  rcases run_delivered C pre suffix rand acts (Search.start numThreads) s
    (Or.inl ⟨rfl, rfl⟩) h with ⟨_, hd⟩ | ⟨_, hd⟩
  · simp [hd]
  · omega

/-- Three workers all draw the matching address "0xAb12" and all reach their send; the handler
takes the value of worker 1.  One result is delivered, and workers 0 and 2 stay at their send. -/
theorem at_most_one_result_delivered_witness :
    run toyCrypto (str "0xAb") (str "2") (fun _ _ => .ok (str "0xAb12")) (Search.start 3)
        [.iterate 0, .iterate 1, .iterate 2, .receive 1] =
      some { workers := [.sending (Sprintf (str "0xAb12") (str "0xAb12")), .returned,
               .sending (Sprintf (str "0xAb12") (str "0xAb12"))]
             closed := false
             handler := .done
             delivered := [Sprintf (str "0xAb12") (str "0xAb12")]
             exited := false } ∧
    [Sprintf (str "0xAb12") (str "0xAb12")].length ≤ 1 :=
  ⟨by decide,
    at_most_one_result_delivered toyCrypto (str "0xAb") (str "2")
      (fun _ _ => .ok (str "0xAb12")) 3 [.iterate 0, .iterate 1, .iterate 2, .receive 1]
      { workers := [.sending (Sprintf (str "0xAb12") (str "0xAb12")), .returned,
          .sending (Sprintf (str "0xAb12") (str "0xAb12"))]
        closed := false
        handler := .done
        delivered := [Sprintf (str "0xAb12") (str "0xAb12")]
        exited := false } (by decide)⟩

/-- C9, as the spec states it, fails: of two workers, worker 0 draws the matching address
"0xAb12" in its pass 0 and its result is delivered; worker 1, which draws "0xCd34", then
begins its pass 0 and after it its pass 1. -/
theorem sibling_iterates_after_publication :
    run toyCrypto (str "0xAb") (str "2")
        (fun w _ => if w = 0 then .ok (str "0xAb12") else .ok (str "0xCd34")) (Search.start 2)
        [.iterate 0, .receive 0] =
      some { workers := [.returned, .running 0]
             closed := false
             handler := .done
             delivered := [Sprintf (str "0xAb12") (str "0xAb12")]
             exited := false } ∧
    run toyCrypto (str "0xAb") (str "2")
        (fun w _ => if w = 0 then .ok (str "0xAb12") else .ok (str "0xCd34"))
        { workers := [.returned, .running 0]
          closed := false
          handler := .done
          delivered := [Sprintf (str "0xAb12") (str "0xAb12")]
          exited := false }
        [.iterate 1, .iterate 1] =
      some { workers := [.returned, .running 2]
             closed := false
             handler := .done
             delivered := [Sprintf (str "0xAb12") (str "0xAb12")]
             exited := false } := by
  decide

theorem matchTest_iff (a pre suffix : GoString) :
    matchTest a pre suffix = true ↔ (∃ t, a = pre ++ t) ∧ (∃ t, a = t ++ suffix) := by
  unfold matchTest
  rw [Bool.and_eq_true, HasPrefix_iff, HasSuffix_iff]

theorem fromMatchingPass_of_send {MasterKey PrivateKey PublicKey : Type}
    (C : Crypto MasterKey PrivateKey PublicKey) (pre suffix : GoString)
    (rand : Nat → Nat → Except GoString (List UInt8)) (w i : Nat) (r : GoString)
    (h : iteration C pre suffix (rand w i) = .send r) :
    FromMatchingPass C pre suffix rand r := by
  obtain ⟨m, a, hd, hr, hm⟩ := derives_of_send C pre suffix (rand w i) r h
  exact ⟨w, i, m, a, hd, hr, (matchTest_iff a pre suffix).1 hm⟩

theorem reachable_set_worker {MasterKey PrivateKey PublicKey : Type}
    (C : Crypto MasterKey PrivateKey PublicKey) (pre suffix : GoString)
    (rand : Nat → Nat → Except GoString (List UInt8)) (n : Nat) (s : Search) (w i : Nat)
    (x : Worker) (hinv : Reachable C pre suffix rand n s)
    (hw : s.workers[w]? = some (.running i)) (hx : x ≠ .returned)
    (hxs : ∀ r, x = .sending r → FromMatchingPass C pre suffix rand r) :
    Reachable C pre suffix rand n { s with workers := s.workers.set w x } := by
  obtain ⟨hlen, hrecv, hdone, hsend, hdel⟩ := hinv
  refine ⟨by simpa using hlen, fun hh => ?_, fun hh => ?_, fun v r hv => ?_, hdel⟩
  · obtain ⟨h1, h2, h3⟩ := hrecv hh
    refine ⟨h1, h2, fun v hv => ?_⟩
    simp only [List.getElem?_set] at hv
    split at hv
    · split at hv
      · exact hx (Option.some.inj hv)
      · exact absurd hv (by simp)
    · exact h3 v hv
  · obtain ⟨h1, v, hv⟩ := hdone hh
    refine ⟨h1, v, ?_⟩
    have hne : w ≠ v := by
      rintro rfl
      rw [hw] at hv
      exact absurd hv (by simp)
    simpa only [List.getElem?_set_ne hne] using hv
  · simp only [List.getElem?_set] at hv
    split at hv
    · split at hv
      · exact hxs r (Option.some.inj hv)
      · exact absurd hv (by simp)
    · exact hsend v r hv

theorem step_reachable {MasterKey PrivateKey PublicKey : Type}
    (C : Crypto MasterKey PrivateKey PublicKey) (pre suffix : GoString)
    (rand : Nat → Nat → Except GoString (List UInt8)) (n : Nat) (hn : 0 < n) (s t : Search)
    (a : Action) (hinv : Reachable C pre suffix rand n s)
    (h : step C pre suffix rand s a = some t) : Reachable C pre suffix rand n t := by
  cases a with
  | iterate w =>
    simp only [step] at h
    split at h
    · exact absurd h (by simp)
    · split at h
      · rename_i i hw
        split at h
        · cases h; exact hinv
        · rename_i result hit
          cases h
          exact reachable_set_worker C pre suffix rand n s w i _ hinv hw (by simp)
            (fun r hr => Worker.sending.inj hr ▸
              fromMatchingPass_of_send C pre suffix rand w i result hit)
        · cases h
          exact reachable_set_worker C pre suffix rand n s w i _ hinv hw (by simp)
            (fun r hr => by cases hr)
      · exact absurd h (by simp)
  | receive w =>
    simp only [step] at h
    split at h
    · exact absurd h (by simp)
    · split at h
      · rename_i result hh hw
        cases h
        obtain ⟨hlen, hrecv, _, hsend, hdel⟩ := hinv
        have hwlt : w < s.workers.length := by
          rcases Nat.lt_or_ge w s.workers.length with hlt | hge
          · exact hlt
          · rw [List.getElem?_eq_none hge] at hw
            exact absurd hw (by simp)
        refine ⟨by simpa using hlen, fun hc => absurd hc (by simp),
          fun _ => ⟨by simp, w, by simp [hwlt]⟩, fun v r hv => ?_, fun r hr => ?_⟩
        · simp only [List.getElem?_set] at hv
          split at hv
          · exact absurd hv (by simp)
          · exact hsend v r hv
        · simp only [List.mem_append, List.mem_singleton] at hr
          rcases hr with hr | rfl
          · exact hdel r hr
          · exact hsend w r hw
      · exact absurd h (by simp)
  | close =>
    simp only [step] at h
    split at h
    · exact absurd h (by simp)
    · split at h
      · rename_i hall
        cases h
        obtain ⟨hlen, hrecv, hdone, hsend, hdel⟩ := hinv
        refine ⟨hlen, fun hh => ?_, hdone, hsend, hdel⟩
        obtain ⟨_, _, h3⟩ := hrecv hh
        have h0 : 0 < s.workers.length := by omega
        have hmem : s.workers[0] ∈ s.workers := List.getElem_mem h0
        have hret : s.workers[0] = Worker.returned := by
          simpa using List.all_eq_true.1 hall _ hmem
        exact absurd (by rw [List.getElem?_eq_getElem h0, hret]) (h3 0)
      · exact absurd h (by simp)
  | receiveClosed =>
    simp only [step] at h
    split at h
    · exact absurd h (by simp)
    · split at h
      · rename_i hh
        split at h
        · rename_i hclosed
          rw [(hinv.2.1 hh).2.1] at hclosed
          exact absurd hclosed (by simp)
        · exact absurd h (by simp)
      · exact absurd h (by simp)

theorem start_reachable {MasterKey PrivateKey PublicKey : Type}
    (C : Crypto MasterKey PrivateKey PublicKey) (pre suffix : GoString)
    (rand : Nat → Nat → Except GoString (List UInt8)) (n : Nat) :
    Reachable C pre suffix rand n (Search.start n) := by
  refine ⟨by simp [Search.start], fun _ => ⟨rfl, rfl, fun v hv => ?_⟩,
    fun hc => absurd hc (by simp [Search.start]), fun v r hv => ?_,
    fun r hr => absurd hr (by simp [Search.start])⟩
  · simp only [Search.start, List.getElem?_replicate] at hv
    split at hv <;> exact absurd hv (by simp)
  · simp only [Search.start, List.getElem?_replicate] at hv
    split at hv <;> exact absurd hv (by simp)

theorem run_reachable {MasterKey PrivateKey PublicKey : Type}
    (C : Crypto MasterKey PrivateKey PublicKey) (pre suffix : GoString)
    (rand : Nat → Nat → Except GoString (List UInt8)) (n : Nat) (hn : 0 < n)
    (acts : List Action) :
    ∀ s t : Search, Reachable C pre suffix rand n s → run C pre suffix rand s acts = some t →
      Reachable C pre suffix rand n t := by
  induction acts with
  | nil =>
    intro s t hinv h
    simp only [run, Option.some.injEq] at h
    exact h ▸ hinv
  | cons a acts ih =>
    intro s t hinv h
    simp only [run] at h
    split at h
    · exact absurd h (by simp)
    · rename_i u hu
      exact ih u t (step_reachable C pre suffix rand n hn s u a hinv hu) h

theorem step_blocked {MasterKey PrivateKey PublicKey : Type}
    (C : Crypto MasterKey PrivateKey PublicKey) (pre suffix : GoString)
    (rand : Nat → Nat → Except GoString (List UInt8)) (s t : Search) (a : Action) (w : Nat)
    (r : GoString) (hh : s.handler = .done) (hw : s.workers[w]? = some (.sending r))
    (h : step C pre suffix rand s a = some t) :
    t.handler = .done ∧ t.workers[w]? = some (.sending r) ∧ t.delivered = s.delivered := by
  cases a with
  | iterate v =>
    simp only [step] at h
    split at h
    · exact absurd h (by simp)
    · split at h
      · rename_i i hv
        have hne : v ≠ w := by
          rintro rfl
          rw [hw] at hv
          exact absurd hv (by simp)
        split at h
        · cases h; exact ⟨hh, hw, rfl⟩
        · cases h; exact ⟨hh, by simpa only [List.getElem?_set_ne hne] using hw, rfl⟩
        · cases h; exact ⟨hh, by simpa only [List.getElem?_set_ne hne] using hw, rfl⟩
      · exact absurd h (by simp)
  | receive v =>
    simp only [step] at h
    split at h
    · exact absurd h (by simp)
    · split at h
      · rename_i hc _
        rw [hh] at hc
        exact absurd hc (by simp)
      · exact absurd h (by simp)
  | close =>
    simp only [step] at h
    split at h
    · exact absurd h (by simp)
    · split at h
      · cases h; exact ⟨hh, hw, rfl⟩
      · exact absurd h (by simp)
  | receiveClosed =>
    simp only [step] at h
    split at h
    · exact absurd h (by simp)
    · split at h
      · rename_i hc
        rw [hh] at hc
        exact absurd hc (by simp)
      · exact absurd h (by simp)

theorem run_blocked {MasterKey PrivateKey PublicKey : Type}
    (C : Crypto MasterKey PrivateKey PublicKey) (pre suffix : GoString)
    (rand : Nat → Nat → Except GoString (List UInt8)) (w : Nat) (r : GoString)
    (acts : List Action) :
    ∀ s t : Search, s.handler = .done → s.workers[w]? = some (.sending r) →
      run C pre suffix rand s acts = some t →
      t.handler = .done ∧ t.workers[w]? = some (.sending r) ∧ t.delivered = s.delivered := by
  induction acts with
  | nil =>
    intro s t hh hw h
    simp only [run, Option.some.injEq] at h
    exact h ▸ ⟨hh, hw, rfl⟩
  | cons a acts ih =>
    intro s t hh hw h
    simp only [run] at h
    split at h
    · exact absurd h (by simp)
    · rename_i u hu
      obtain ⟨h1, h2, h3⟩ := step_blocked C pre suffix rand s u a w r hh hw hu
      obtain ⟨k1, k2, k3⟩ := ih u t h1 h2 h
      exact ⟨k1, k2, k3.trans h3⟩

/-! ## A pass of a worker inside the search -/

/-- C4, as the spec states it, fails: two workers both derive the mnemonic "m:Ab12" and the
address "0xAb12", which starts with "0xAb" and ends with "2".  Both reach the send of line 93,
the handler takes the value of worker 0, and worker 1 stays at its send under every further
schedule: it matched, and it neither completes its send nor returns. -/
theorem matching_worker_never_returns :
    Derives labelCrypto (.ok (str "Ab12")) (str "m:Ab12") (str "0xAb12") ∧
    matchTest (str "0xAb12") (str "0xAb") (str "2") = true ∧
    run labelCrypto (str "0xAb") (str "2") (fun _ _ => .ok (str "Ab12")) (Search.start 2)
        [.iterate 0, .iterate 1, .receive 0] =
      some { workers := [.returned, .sending (str "📝 Mnemonic: m:Ab12\n🏷️ Address: 0xAb12")]
             closed := false
             handler := .done
             delivered := [str "📝 Mnemonic: m:Ab12\n🏷️ Address: 0xAb12"]
             exited := false } ∧
    (∀ (acts : List Action) (t : Search),
      run labelCrypto (str "0xAb") (str "2") (fun _ _ => .ok (str "Ab12"))
          { workers := [.returned, .sending (str "📝 Mnemonic: m:Ab12\n🏷️ Address: 0xAb12")]
            closed := false
            handler := .done
            delivered := [str "📝 Mnemonic: m:Ab12\n🏷️ Address: 0xAb12"]
            exited := false } acts = some t →
        t.workers[1]? = some (.sending (str "📝 Mnemonic: m:Ab12\n🏷️ Address: 0xAb12")) ∧
          t.workers[1]? ≠ some .returned) := by
  refine ⟨⟨str "Ab12", str "m:Ab12", str "m:Ab12", str "m:Ab12", rfl, rfl, rfl, rfl, rfl,
    by decide⟩, by decide, by decide, fun acts t h => ?_⟩
  have hb := (run_blocked labelCrypto (str "0xAb") (str "2") (fun _ _ => .ok (str "Ab12")) 1
    (str "📝 Mnemonic: m:Ab12\n🏷️ Address: 0xAb12") acts _ t (by rfl) (by decide) h).2.1
  exact ⟨hb, by rw [hb]; simp⟩

/-- C4, amended: in a pass of the loop of `generateMnemonicAndAddress` in which all derivation
steps succeed with mnemonic `m` and address `a`, the worker reaches the send of line 93 iff `a`
starts with the prefix and ends with the suffix, and the value it offers there is exactly
"📝 Mnemonic: " + m + "\n🏷️ Address: " + a, with the `m` and the `a` of that same pass; when `a`
does not match, the worker begins the next pass.  The send completes, and the worker then
returns, when the handler's receive takes the value, which it does while the handler is still
receiving; once the handler has received, a worker at its send stays there for good and
nothing more is delivered.  Every result delivered in a search of at least one worker is the
format string of a pass whose address satisfies the criteria. -/
theorem generateMnemonicAndAddress_pass {MasterKey PrivateKey PublicKey : Type}
    (C : Crypto MasterKey PrivateKey PublicKey) (pre suffix : GoString)
    (rand : Nat → Nat → Except GoString (List UInt8)) :
    (∀ (w i : Nat) (m a : GoString), Derives C (rand w i) m a →
      ((∃ r, iteration C pre suffix (rand w i) = .send r) ↔
        (∃ t, a = pre ++ t) ∧ (∃ t, a = t ++ suffix)) ∧
      (∀ r, iteration C pre suffix (rand w i) = .send r →
        r = str "📝 Mnemonic: " ++ m ++ str "\n🏷️ Address: " ++ a) ∧
      ((∃ t, a = pre ++ t) ∧ (∃ t, a = t ++ suffix) →
        (∀ fuel, generateMnemonicAndAddress C pre suffix (rand w) (fuel + 1) i =
          .sending (str "📝 Mnemonic: " ++ m ++ str "\n🏷️ Address: " ++ a)) ∧
        (∀ s : Search, s.exited = false → s.workers[w]? = some (.running i) →
          step C pre suffix rand s (.iterate w) =
            some { s with workers := (s.workers.set w
              (.sending (str "📝 Mnemonic: " ++ m ++ str "\n🏷️ Address: " ++ a))) })) ∧
      (¬ ((∃ t, a = pre ++ t) ∧ (∃ t, a = t ++ suffix)) →
        iteration C pre suffix (rand w i) = .next ∧
        (∀ fuel, generateMnemonicAndAddress C pre suffix (rand w) (fuel + 1) i =
          generateMnemonicAndAddress C pre suffix (rand w) fuel (i + 1)) ∧
        (∀ s : Search, s.exited = false → s.workers[w]? = some (.running i) →
          step C pre suffix rand s (.iterate w) =
            some { s with workers := s.workers.set w (.running (i + 1)) }))) ∧
    (∀ (s : Search) (w : Nat) (r : GoString), s.exited = false →
      s.workers[w]? = some (.sending r) → s.handler = .receiving →
      step C pre suffix rand s (.receive w) =
        some { s with
          workers := s.workers.set w .returned
          handler := .done
          delivered := s.delivered ++ [r] }) ∧
    (∀ (s : Search) (w : Nat) (r : GoString),
      s.workers[w]? = some (.sending r) → s.handler = .done →
      ∀ (acts : List Action) (t : Search), run C pre suffix rand s acts = some t →
        t.workers[w]? = some (.sending r) ∧ t.delivered = s.delivered) ∧
    (∀ (numThreads : Nat) (acts : List Action) (s : Search), 0 < numThreads →
      run C pre suffix rand (Search.start numThreads) acts = some s →
      ∀ r ∈ s.delivered, ∃ w k m a, Derives C (rand w k) m a ∧
        r = str "📝 Mnemonic: " ++ m ++ str "\n🏷️ Address: " ++ a ∧
        (∃ t, a = pre ++ t) ∧ (∃ t, a = t ++ suffix)) := by
  refine ⟨fun w i m a h => ?_, fun s w r hlive hw hh => ?_, fun s w r hw hh acts t h => ?_,
    fun n acts s hn h r hr => ?_⟩
  · have hit := iteration_of_derives C pre suffix (rand w i) m a h
    have hmt := matchTest_iff a pre suffix
    have hfmt : Sprintf m a = str "📝 Mnemonic: " ++ m ++ str "\n🏷️ Address: " ++ a := rfl
    refine ⟨?_, ?_, ?_, ?_⟩
    · rw [← hmt, hit]
      by_cases hm : matchTest a pre suffix = true <;> simp [hm]
    · intro r hr
      rw [hit] at hr
      by_cases hm : matchTest a pre suffix = true
      · rw [if_pos hm] at hr
        rw [← hfmt]
        exact (Outcome.send.inj hr).symm
      · rw [if_neg hm] at hr
        exact absurd hr (by simp)
    · intro hm
      rw [if_pos (hmt.2 hm), hfmt] at hit
      refine ⟨fun fuel => ?_, fun s hlive hw => ?_⟩
      · rw [generateMnemonicAndAddress, hit]
      · simp only [step, hlive, hw, hit, Bool.false_eq_true, if_false]
    · intro hm
      have hm1 : ¬ matchTest a pre suffix = true := fun hc => hm (hmt.1 hc)
      rw [if_neg hm1] at hit
      refine ⟨hit, fun fuel => ?_, fun s hlive hw => ?_⟩
      · rw [generateMnemonicAndAddress, hit]
      · simp only [step, hlive, hw, hit, Bool.false_eq_true, if_false]
  · simp only [step, hlive, hw, hh, Bool.false_eq_true, if_false]
  · obtain ⟨_, h2, h3⟩ := run_blocked C pre suffix rand w r acts s t hh hw h
    exact ⟨h2, h3⟩
  · exact (run_reachable C pre suffix rand n hn acts _ s
      (start_reachable C pre suffix rand n) h).2.2.2.2 r hr

/-- With the entropy "Ab12" drawn in pass 3, whose mnemonic "m:Ab12" and address "0xAb12"
differ, and the criteria "0xAb" and "2", the worker reaches its send in that pass and offers
the format string with the mnemonic first and the address second. -/
theorem generateMnemonicAndAddress_pass_witness :
    Derives labelCrypto (.ok (str "Ab12")) (str "m:Ab12") (str "0xAb12") ∧
    generateMnemonicAndAddress labelCrypto (str "0xAb") (str "2")
        (fun _ => .ok (str "Ab12")) 1 3 =
      .sending (str "📝 Mnemonic: m:Ab12\n🏷️ Address: 0xAb12") :=
  ⟨⟨str "Ab12", str "m:Ab12", str "m:Ab12", str "m:Ab12", rfl, rfl, rfl, rfl, rfl, by decide⟩,
    (((generateMnemonicAndAddress_pass labelCrypto (str "0xAb") (str "2")
      (fun _ _ => .ok (str "Ab12"))).1 0 3 (str "m:Ab12") (str "0xAb12")
      ⟨str "Ab12", str "m:Ab12", str "m:Ab12", str "m:Ab12", rfl, rfl, rfl, rfl, rfl,
        by decide⟩).2.2.1 ⟨⟨str "12", by decide⟩, ⟨str "0xAb1", by decide⟩⟩).1 0⟩

/-! ## After the publication -/

/-- C9, amended: after one worker has published a result, that worker has returned and begins no
new derivation pass, but the siblings observe no cancellation, the code has none: a sibling that
stands at its loop start begins its next derivation pass as it would have before the
publication, without changing what was delivered, and a sibling whose own pass has matched
stays at its send of line 93 for good and begins no pass either. -/
theorem siblings_not_cancelled {MasterKey PrivateKey PublicKey : Type}
    (C : Crypto MasterKey PrivateKey PublicKey) (pre suffix : GoString)
    (rand : Nat → Nat → Except GoString (List UInt8)) (numThreads : Nat)
    (acts : List Action) (s : Search) (hn : 0 < numThreads)
    (hrun : run C pre suffix rand (Search.start numThreads) acts = some s)
    (hpub : s.delivered ≠ []) :
    (∃ v : Nat, s.workers[v]? = some Worker.returned) ∧
    (∀ v : Nat, s.workers[v]? = some Worker.returned →
      step C pre suffix rand s (.iterate v) = none) ∧
    (∀ w i : Nat, s.exited = false → s.workers[w]? = some (Worker.running i) →
      ∃ t, step C pre suffix rand s (.iterate w) = some t ∧ t.delivered = s.delivered ∧
        (match iteration C pre suffix (rand w i) with
          | .fatal _ => t.exited = true
          | .send result => t.workers[w]? = some (.sending result)
          | .next => t.workers[w]? = some (.running (i + 1)))) ∧
    (∀ (w : Nat) (r : GoString), s.workers[w]? = some (Worker.sending r) →
      step C pre suffix rand s (.iterate w) = none ∧
      step C pre suffix rand s (.receive w) = none ∧
      ∀ (more : List Action) (t : Search), run C pre suffix rand s more = some t →
        t.workers[w]? = some (.sending r)) := by
  have hinv := run_reachable C pre suffix rand numThreads hn acts _ s
    (start_reachable C pre suffix rand numThreads) hrun
  have hdone : s.handler = .done := by
    cases hh : s.handler with
    | receiving => exact absurd (hinv.2.1 hh).1 hpub
    | done => rfl
  refine ⟨(hinv.2.2.1 hdone).2, fun v hv => by simp [step, hv], fun w i hlive hw => ?_,
    fun w r hw => ⟨by simp [step, hw], by simp [step, hw, hdone], fun more t h =>
      (run_blocked C pre suffix rand w r more s t hdone hw h).2.1⟩⟩
  have hlt : w < s.workers.length := by
    rcases Nat.lt_or_ge w s.workers.length with h | h
    · exact h
    · rw [List.getElem?_eq_none h] at hw
      exact absurd hw (by simp)
  simp only [step, hlive, hw, Bool.false_eq_true, if_false]
  cases hit : iteration C pre suffix (rand w i) with
  | fatal err => exact ⟨_, rfl, rfl, rfl⟩
  | send result => exact ⟨_, rfl, rfl, by simp [hlt]⟩
  | next => exact ⟨_, rfl, rfl, by simp [hlt]⟩

/-- After the result of worker 0 has been delivered, worker 1 begins its pass 0, which ends
without a match, and stands at the head of its pass 1. -/
theorem siblings_not_cancelled_witness :
    ∃ t, step toyCrypto (str "0xAb") (str "2")
        (fun w _ => if w = 0 then .ok (str "0xAb12") else .ok (str "0xCd34"))
        { workers := [.returned, .running 0]
          closed := false
          handler := .done
          delivered := [Sprintf (str "0xAb12") (str "0xAb12")]
          exited := false } (.iterate 1) = some t ∧
      t.delivered = [Sprintf (str "0xAb12") (str "0xAb12")] ∧
      t.workers[1]? = some (.running 1) :=
  (siblings_not_cancelled toyCrypto (str "0xAb") (str "2")
    (fun w _ => if w = 0 then .ok (str "0xAb12") else .ok (str "0xCd34")) 2
    [.iterate 0, .receive 0]
    { workers := [.returned, .running 0]
      closed := false
      handler := .done
      delivered := [Sprintf (str "0xAb12") (str "0xAb12")]
      exited := false } (by decide) (by decide) (by decide)).2.2.1 1 0 rfl (by decide)

end BeautifulAddress
